import Mathlib

/-!
Verification development for the pseudocode-and-flowchart generator
(`ui_reverse_doc.py`).  Source lines are modelled as `List Char`; each
Python regular expression is transcribed into a small regex AST (`RE`)
whose matcher follows Python `re.search` semantics (leftmost match,
greedy quantifiers, alternatives tried left to right, `\b` word
boundaries, `$` end anchor) for exactly the constructs the source uses.
-/

namespace UiRev

abbrev Str := List Char

/-- `s.data` of a string literal, used to write `List Char` constants. -/
def str (s : String) : Str := s.data

/-- Python `\w` for the ASCII inputs the tool handles. -/
def wordChar (c : Char) : Bool := c.isAlpha || c.isDigit || c == '_'

/-- Python `\s`: space, tab, newline, carriage return, vertical tab, form feed. -/
def pyWs (c : Char) : Bool :=
  c == ' ' || c == '\t' || c == '\n' || c == '\r' || c == '\x0b' || c == '\x0c'

/-- Character comparison, case-insensitive when `ic` (Python `re.IGNORECASE`). -/
def charEqIC (ic : Bool) (p a : Char) : Bool :=
  if ic then p.toLower == a.toLower else p == a

/-- Single-character classes appearing in the source's patterns. -/
inductive CC where
  | lit (c : Char)
  | ws
  | wordc
  | dot
  | anyOf (cs : List Char)
  | noneOf (cs : List Char)
deriving DecidableEq

def ccMatch (ic : Bool) : CC → Char → Bool
  | .lit c, a => charEqIC ic c a
  | .ws, a => pyWs a
  | .wordc, a => wordChar a
  | .dot, a => !(a == '\n')
  | .anyOf cs, a => cs.any (fun c => charEqIC ic c a)
  | .noneOf cs, a => !(cs.any (fun c => charEqIC ic c a))

/-- Regex AST: quantifiers are restricted to character classes, which covers
every pattern in the source (`\s*`, `\s+`, `\w+`, `.*`, `.+`, `[^:]+`, `[^;]*`). -/
inductive RE where
  | eps
  | cc (c : CC)
  | lit (cs : Str)
  | seq (a b : RE)
  | alt (a b : RE)
  | opt (a : RE)
  | star (c : CC)
  | plus (c : CC)
  | wordB
  | eos
  | grp (n : Nat) (a : RE)

/-- Captured groups of a successful match. -/
abbrev Caps := List (Nat × Str)

/-- Python `\b`: true iff exactly one side of the current position is a word char. -/
def wordBoundary (prev : Option Char) (s : Str) : Bool :=
  let l := match prev with
    | some c => wordChar c
    | none => false
  let r := match s with
    | c :: _ => wordChar c
    | [] => false
  l != r

/-- Greedy Kleene star over a character class: consume as much as possible,
backtracking into the continuation `k` (Python greedy `*`). -/
def matchStar (ic : Bool) (c : CC) : Option Char → Str → (Option Char → Str → Option Caps) → Option Caps
  | prev, [], k => k prev []
  | prev, a :: r, k =>
    if ccMatch ic c a then
      match matchStar ic c (some a) r k with
      | some res => some res
      | none => k prev (a :: r)
    else k prev (a :: r)

/-- Match a literal character sequence. -/
def matchLit (ic : Bool) : Str → Option Char → Str → (Option Char → Str → Option Caps) → Option Caps
  | [], prev, s, k => k prev s
  | c :: cs, _, s, k =>
    match s with
    | [] => none
    | a :: r => if charEqIC ic c a then matchLit ic cs (some a) r k else none

/-- CPS backtracking matcher.  `prev` is the character before the current
position (for `\b`); a group capture is the prefix consumed by its body. -/
def matchRE (ic : Bool) : RE → Option Char → Str → (Option Char → Str → Option Caps) → Option Caps
  | .eps, prev, s, k => k prev s
  | .cc c, _, s, k =>
    match s with
    | [] => none
    | a :: r => if ccMatch ic c a then k (some a) r else none
  | .lit cs, prev, s, k => matchLit ic cs prev s k
  | .seq a b, prev, s, k => matchRE ic a prev s (fun p r => matchRE ic b p r k)
  | .alt a b, prev, s, k =>
    match matchRE ic a prev s k with
    | some res => some res
    | none => matchRE ic b prev s k
  | .opt a, prev, s, k =>
    match matchRE ic a prev s k with
    | some res => some res
    | none => k prev s
  | .star c, prev, s, k => matchStar ic c prev s k
  | .plus c, _, s, k =>
    match s with
    | [] => none
    | a :: r => if ccMatch ic c a then matchStar ic c (some a) r k else none
  | .wordB, prev, s, k => if wordBoundary prev s then k prev s else none
  | .eos, prev, s, k => if s.isEmpty || s == ['\n'] then k prev s else none
  | .grp n a, prev, s, k =>
    matchRE ic a prev s (fun p r =>
      match k p r with
      | some caps => some ((n, s.take (s.length - r.length)) :: caps)
      | none => none)

/-- Try to match at the current position, else advance one character
(leftmost-match search, as `re.search`). -/
def searchAux (ic : Bool) (r : RE) : Option Char → Str → Option Caps
  | prev, s =>
    match matchRE ic r prev s (fun _ _ => some []) with
    | some caps => some caps
    | none =>
      match s with
      | [] => none
      | a :: rest => searchAux ic r (some a) rest

/-- Python `re.search`: `some caps` iff the pattern matches somewhere. -/
def research (ic : Bool) (r : RE) (s : Str) : Option Caps := searchAux ic r none s

/-- `m.group n` of a match result. -/
def capGroup (n : Nat) (caps : Caps) : Option Str :=
  (caps.find? (fun c => c.1 == n)).map (fun c => c.2)

/-- Sequence a list of regex fragments. -/
def rcat (rs : List RE) : RE := rs.foldr RE.seq RE.eps

/-- Literal fragment from a string. -/
def slit (s : String) : RE := RE.lit s.data

/-- Alternatives tried left to right (Python `(x|y|z)`). -/
def altList : List RE → RE
  | [] => .eps
  | [r] => r
  | r :: rest => .alt r (altList rest)

/-- The `KEYWORDS` pattern catalog, transcribed pattern by pattern from the
source dictionary (same order of categories and of patterns). -/
def KEYWORDS : List (String × List RE) :=
  [("io_in",
    [rcat [.wordB, slit "input", .star .ws, .cc (.lit '(')],
     rcat [.wordB, slit "scanf", .star .ws, .cc (.lit '(')],
     rcat [.wordB, slit "cin", .star .ws, slit ">>"],
     rcat [.wordB, slit "Console.Read", .opt (slit "Line"), .star .ws, .cc (.lit '(')],
     rcat [.wordB, slit "readline", .star .ws, .cc (.lit '(')],
     rcat [.wordB, slit "prompt", .star .ws, .cc (.lit '(')],
     rcat [.wordB, slit "read", .star .ws, .cc (.lit '(')],
     rcat [.wordB, slit "gets", .star .ws, .cc (.lit '(')],
     rcat [.wordB, slit "std::getline", .star .ws, .cc (.lit '(')],
     rcat [.wordB, slit "BufferedReader", .wordB, .star .dot, slit "readLine", .star .ws, .cc (.lit '(')],
     rcat [.wordB, .eos, .cc (.lit '_'), altList [slit "GET", slit "POST", slit "REQUEST"], .wordB],
     rcat [.wordB, slit "fmt.Scan", .opt (.cc (.anyOf ['f', 'l', 'n'])), .star .ws, .cc (.lit '(')]]),
   ("io_out",
    [rcat [.wordB, slit "print", .star .ws, .cc (.lit '(')],
     rcat [.wordB, slit "printf", .star .ws, .cc (.lit '(')],
     rcat [.wordB, slit "cout", .star .ws, slit "<<"],
     rcat [.wordB, slit "Console.Write", .opt (slit "Line"), .star .ws, .cc (.lit '(')],
     rcat [.wordB, slit "System.out.print", .opt (slit "ln"), .star .ws, .cc (.lit '(')],
     rcat [.wordB, slit "console.log", .star .ws, .cc (.lit '(')],
     rcat [.wordB, slit "echo", .wordB],
     rcat [.wordB, slit "fmt.Print", .opt (.cc (.anyOf ['f', 'l', 'n'])), .star .ws, .cc (.lit '(')]]),
   ("if",
    [rcat [.wordB, slit "if", .star .ws, .cc (.lit '(')],
     rcat [.wordB, slit "if", .plus .ws, .plus (.noneOf [':']), .cc (.lit ':')]]),
   ("elif",
    [rcat [.wordB, slit "else if", .wordB],
     rcat [.wordB, slit "elif", .wordB]]),
   ("else",
    [rcat [.wordB, slit "else", .wordB]]),
   ("for",
    [rcat [.wordB, slit "for", .star .ws, .cc (.lit '(')],
     rcat [.wordB, slit "for", .wordB, .plus .ws, .plus .dot, .plus .ws, slit "in", .plus .ws, .plus .dot, .cc (.lit ':')]]),
   ("while",
    [rcat [.wordB, slit "while", .star .ws, .cc (.lit '(')],
     rcat [.wordB, slit "while", .wordB, .star .ws, .plus .dot, .cc (.lit ':')]]),
   ("do",
    [rcat [.wordB, slit "do", .star .ws, .opt (.cc (.lit '\x7b'))]]),
   ("switch",
    [rcat [.wordB, slit "switch", .star .ws, .cc (.lit '(')]]),
   ("case",
    [rcat [.wordB, slit "case", .wordB]]),
   ("default",
    [rcat [.wordB, slit "default", .wordB]]),
   ("function",
    [rcat [.wordB, slit "def", .plus .ws, .plus .wordc, .star .ws, .cc (.lit '(')],
     rcat [.wordB, slit "function", .plus .ws, .plus .wordc, .star .ws, .cc (.lit '(')],
     rcat [.wordB, .plus .wordc, .plus .ws, .plus .wordc, .star .ws, .cc (.lit '('),
           .star (.noneOf [';']), .cc (.lit ')'), .star .ws, .cc (.lit '\x7b')],
     rcat [.wordB, slit "fn", .plus .ws, .plus .wordc, .star .ws, .cc (.lit '(')],
     rcat [.wordB, slit "func", .plus .ws, .plus .wordc, .star .ws, .cc (.lit '(')]]),
   ("return",
    [rcat [.wordB, slit "return", .wordB]]),
   ("open_block", [.cc (.lit '\x7b')]),
   ("close_block", [.cc (.lit '\x7d')])]

/-- `detect_matches(line, category)`: does any regex of the category match? -/
def detect_matches (line : Str) (category : String) : Bool :=
  ((((KEYWORDS.find? (fun kv => kv.1 == category)).map (fun kv => kv.2)).getD []).any
    (fun pat => (research false pat line).isSome))

/-- The fixed priority order tested by `line_to_step`. -/
def stepOrder : List String :=
  ["function", "if", "elif", "else", "for", "while", "do", "switch", "case",
   "default", "return", "io_in", "io_out"]

/-- The `for t in [...]` loop body of `line_to_step`. -/
def firstMatch (line : Str) : List String → String
  | [] => "process"
  | t :: ts => if detect_matches line t then t else firstMatch line ts

/-- `line_to_step(line)`: first matching category in priority order, else `process`. -/
def line_to_step (line : Str) : String := firstMatch line stepOrder

/-! ## Block normalizer (`normalize_indentation`) -/

/-- Python `line.rstrip("\n")`. -/
def rstripNl (l : Str) : Str := (l.reverse.dropWhile (fun c => c == '\n')).reverse

/-- Python `line.strip()` (default whitespace). -/
def pyStrip (l : Str) : Str := ((l.dropWhile pyWs).reverse.dropWhile pyWs).reverse

/-- `len(line) - len(line.lstrip(" "))`: count of leading space characters. -/
def leadSpaces (l : Str) : Nat := (l.takeWhile (fun c => c == ' ')).length

/-- Python `s.startswith(p)`. -/
def startsW (s : Str) (p : String) : Bool := p.data.isPrefixOf s

/-- Python `s.endswith(p)`. -/
def endsW (s : Str) (p : String) : Bool := p.data.isSuffixOf s

/-- The regex `:\s*$` used for the Python-family colon rule. -/
def colonEndRE : RE := rcat [.cc (.lit ':'), .star .ws, .eos]

/-- `stripped.startswith(("if ", "elif ", "else", "for ", "while ", "def ", "class "))`. -/
def pyBlockKwStart (s : Str) : Bool :=
  startsW s "if " || startsW s "elif " || startsW s "else" || startsW s "for " ||
  startsW s "while " || startsW s "def " || startsW s "class "

/-- A normalized line: `(indent_level, stripped_line)`. -/
abbrev NL := Int × Str

/-- The body of the `for raw in lines` loop of `normalize_indentation`,
acting on the running `(indent_level, out)` state. -/
def normLine (lang : String) (acc : Int × List NL) (raw : Str) : Int × List NL :=
  let line := rstripNl raw
  let stripped := pyStrip line
  if stripped.isEmpty || startsW stripped "//" || startsW stripped "#" || startsW stripped "/*" then
    acc
  else if stripped == str "\x7d" || stripped == str "\x7d;" then
    (max 0 (acc.1 - 1), acc.2)
  else
    let lvl : Int := if lang == "python" then Int.ofNat (leadSpaces line / 4) else acc.1
    if stripped == str "\x7b" then
      (if lang != "python" then lvl + 1 else lvl, acc.2)
    else
      let out := acc.2 ++ [(lvl, stripped)]
      let lvl := if lang != "python" && endsW stripped "\x7b" then lvl + 1 else lvl
      let lvl :=
        if lang == "python" && (research false colonEndRE stripped).isSome && pyBlockKwStart stripped then
          lvl + 1
        else lvl
      let lvl := if lang != "python" && endsW stripped "\x7d;" then max 0 (lvl - 1) else lvl
      (lvl, out)

/-- `normalize_indentation(lines, lang)`. -/
def normalize_indentation (lines : List Str) (lang : String) : List NL :=
  (lines.foldl (normLine lang) (0, [])).2

/-! ## Step builder (`build_steps`) -/

structure Step where
  id : String
  type : String
  text : Str
  indent : Int
deriving DecidableEq

instance : Inhabited Step := ⟨⟨"", "", [], 0⟩⟩

/-- `text if len(text) <= 140 else text[:137] + "..."`. -/
def truncStep (t : Str) : Str := if t.length ≤ 140 then t else t.take 137 ++ str "..."

/-- The loop of `build_steps`, carrying the id counter `nid`. -/
def build_steps_core (nid : Nat) : List NL → List Step
  | [] => []
  | (ind, text) :: rest =>
    { id := "N" ++ toString nid, type := line_to_step text, text := truncStep text,
      indent := ind } :: build_steps_core (nid + 1) rest

/-- `build_steps(norm_lines)`: start marker, one step per line, end marker. -/
def build_steps (norm : List NL) : List Step :=
  ({ id := "N0", type := "start", text := str "START", indent := 0 } :: build_steps_core 1 norm)
  ++ [{ id := "N" ++ toString (norm.length + 1), type := "end", text := str "END", indent := 0 }]

/-! ## Pseudocode renderer (`to_pseudocode` and its helpers) -/

/-- `\b(def|function|fn|func)\s+(\w+)\s*\(`. -/
def funcNameRE : RE :=
  rcat [.wordB, .grp 1 (altList [slit "def", slit "function", slit "fn", slit "func"]),
        .plus .ws, .grp 2 (.plus .wordc), .star .ws, .cc (.lit '(')]

/-- Procedure name extraction in the `function` branch: group 2, default `procedure`. -/
def procNameOf (txt : Str) : Str :=
  (((research false funcNameRE txt).bind (capGroup 2))).getD (str "procedure")

/-- `\breturn\b(.*)` with `re.IGNORECASE`. -/
def returnRE : RE := rcat [.wordB, slit "return", .wordB, .grp 1 (.star .dot)]

/-- `val = m.group(1).strip() if m else ""`. -/
def returnValOf (txt : Str) : Str :=
  match (research true returnRE txt).bind (capGroup 1) with
  | some g => pyStrip g
  | none => []

/-- `\((.*)\)`. -/
def condParenRE : RE := rcat [.cc (.lit '('), .grp 1 (.star .dot), .cc (.lit ')')]

/-- `\b(if|elif|while)\s+(.+):`. -/
def condColonRE : RE :=
  rcat [.wordB, .grp 1 (altList [slit "if", slit "elif", slit "while"]),
        .plus .ws, .grp 2 (.plus .dot), .cc (.lit ':')]

/-- `\bswitch\s*\((.*)\)` with `re.IGNORECASE`. -/
def condSwitchRE : RE :=
  rcat [.wordB, slit "switch", .star .ws, .cc (.lit '('), .grp 1 (.star .dot), .cc (.lit ')')]

/-- Python `cond.rstrip("{")`. -/
def rstripBrace (l : Str) : Str := (l.reverse.dropWhile (fun c => c == '\x7b')).reverse

/-- `extract_condition(txt)`. -/
def extract_condition (txt : Str) : Str :=
  match (research false condParenRE txt).bind (capGroup 1) with
  | some g =>
    let cond := pyStrip (rstripBrace (pyStrip g))
    if cond.isEmpty then str "<condition>" else cond
  | none =>
    match (research false condColonRE txt).bind (capGroup 2) with
    | some g => pyStrip g
    | none =>
      match (research true condSwitchRE txt).bind (capGroup 1) with
      | some g => pyStrip g
      | none => str "<condition>"

/-- `for\s*\((.*)\)` (no word boundary in the source pattern). -/
def loopCRE : RE := rcat [slit "for", .star .ws, .cc (.lit '('), .grp 1 (.star .dot), .cc (.lit ')')]

/-- `for\s+(.+)\s+in\s+(.+):`. -/
def loopPyRE : RE :=
  rcat [slit "for", .plus .ws, .grp 1 (.plus .dot), .plus .ws, slit "in",
        .plus .ws, .grp 2 (.plus .dot), .cc (.lit ':')]

/-- `extract_loop_header(txt)`. -/
def extract_loop_header (txt : Str) : Str :=
  match (research false loopCRE txt).bind (capGroup 1) with
  | some g => pyStrip g
  | none =>
    match research false loopPyRE txt with
    | some caps =>
      match capGroup 1 caps, capGroup 2 caps with
      | some g1, some g2 => pyStrip g1 ++ str " IN " ++ pyStrip g2
      | _, _ => str "<loop>"
    | none => str "<loop>"

/-- `\bcase\s+([^:]+):?` with `re.IGNORECASE`. -/
def caseValRE : RE :=
  rcat [.wordB, slit "case", .plus .ws, .grp 1 (.plus (.noneOf [':'])), .opt (.cc (.lit ':'))]

/-- `extract_case_value(txt)`. -/
def extract_case_value (txt : Str) : Str :=
  match (research true caseValRE txt).bind (capGroup 1) with
  | some g => pyStrip g
  | none => str "<value>"

/-- One pass of `re.sub(r"\s+", " ", txt)`: each whitespace run becomes one space. -/
def collapseWsAux : Bool → Str → Str
  | _, [] => []
  | inRun, c :: r =>
    if pyWs c then
      if inRun then collapseWsAux true r else ' ' :: collapseWsAux true r
    else c :: collapseWsAux false r

/-- `compact_io(txt) = re.sub(r"\s+", " ", txt).strip()`. -/
def compact_io (txt : Str) : Str := pyStrip (collapseWsAux false txt)

/-- `\b(end|endif|end if|endfor|end for|endwhile|end while|break;?)\b`, `re.IGNORECASE`. -/
def closingKwRE : RE :=
  rcat [.wordB,
        altList [slit "end", slit "endif", slit "end if", slit "endfor", slit "end for",
                 slit "endwhile", slit "end while", .seq (slit "break") (.opt (.cc (.lit ';')))],
        .wordB]

/-- Renderer state: emitted lines (indent multiplier at write time, content),
current indent, function-name stack and control stack (top = head). -/
structure PCSt where
  pc : List (Int × Str)
  indent : Int
  func_stack : List Str
  ctrl_stack : List String
deriving DecidableEq

/-- `w(s)`: append a line at the current indent. -/
def wLine (st : PCSt) (s : Str) : PCSt := { st with pc := st.pc ++ [(st.indent, s)] }

/-- Closing text written by `end_one_block` for a popped marker. -/
def closerOf (last : String) : Option Str :=
  if last == "IF" then some (str "END IF")
  else if last == "FOR" then some (str "END FOR")
  else if last == "WHILE" then some (str "END WHILE")
  else if last == "DO" then some (str "END DO")
  else if last == "SWITCH" then some (str "END SWITCH")
  else if last == "CASE" then some (str "// END CASE")
  else none

/-- `end_one_block(pc, stack, write_fn)`: pop the stack and return the text the
matching `write_fn` call would emit (the callers always guard non-emptiness). -/
def end_one_block : List String → Option Str × List String
  | [] => (none, [])
  | last :: rest => (closerOf last, rest)

/-- The per-category emission branch of the `for node in steps` loop. -/
def pcEmit (st : PCSt) (t : String) (txt : Str) : PCSt :=
  if t == "function" then
    let name := procNameOf txt
    let st := wLine st (str "PROCEDURE " ++ name ++ str "(...)")
    { st with func_stack := name :: st.func_stack, indent := st.indent + 1 }
  else if t == "return" then
    let val := returnValOf txt
    wLine st (if !val.isEmpty then str "RETURN " ++ val else str "RETURN")
  else if t == "if" then
    let st := wLine st (str "IF " ++ extract_condition txt ++ str " THEN")
    { st with ctrl_stack := "IF" :: st.ctrl_stack, indent := st.indent + 1 }
  else if t == "elif" then
    if st.ctrl_stack.head? == some "IF" then
      let st := { st with indent := max 1 (st.indent - 1) }
      let st := wLine st (str "ELSE IF " ++ extract_condition txt ++ str " THEN")
      { st with indent := st.indent + 1 }
    else
      wLine st (str "ELSE IF " ++ extract_condition txt ++ str " THEN")
  else if t == "else" then
    if st.ctrl_stack.head? == some "IF" then
      let st := { st with indent := max 1 (st.indent - 1) }
      let st := wLine st (str "ELSE")
      { st with indent := st.indent + 1 }
    else wLine st (str "ELSE")
  else if t == "for" then
    let st := wLine st (str "FOR " ++ extract_loop_header txt ++ str " DO")
    { st with ctrl_stack := "FOR" :: st.ctrl_stack, indent := st.indent + 1 }
  else if t == "while" then
    let st := wLine st (str "WHILE " ++ extract_condition txt ++ str " DO")
    { st with ctrl_stack := "WHILE" :: st.ctrl_stack, indent := st.indent + 1 }
  else if t == "do" then
    let st := wLine st (str "DO")
    { st with ctrl_stack := "DO" :: st.ctrl_stack, indent := st.indent + 1 }
  else if t == "switch" then
    let st := wLine st (str "SWITCH " ++ extract_condition txt)
    { st with ctrl_stack := "SWITCH" :: st.ctrl_stack, indent := st.indent + 1 }
  else if t == "case" then
    let st := wLine st (str "CASE " ++ extract_case_value txt ++ str ":")
    { st with indent := st.indent + 1, ctrl_stack := "CASE" :: st.ctrl_stack }
  else if t == "default" then
    let st := wLine st (str "DEFAULT:")
    { st with indent := st.indent + 1, ctrl_stack := "CASE" :: st.ctrl_stack }
  else if t == "io_in" then
    wLine st (str "INPUT  ←  " ++ compact_io txt)
  else if t == "io_out" then
    wLine st (str "OUTPUT ←  " ++ compact_io txt)
  else
    wLine st (str "PROCESS " ++ txt)

/-- The closing-keyword heuristic run after each emission: on evidence in the
original text, pop one block and write its closer one level left. -/
def pcHeuristic (st : PCSt) (txt : Str) : PCSt :=
  if (research true closingKwRE txt).isSome && !st.ctrl_stack.isEmpty then
    let res := end_one_block st.ctrl_stack
    let st :=
      match res.1 with
      | some c => { st with pc := st.pc ++ [(st.indent - 1, c)] }
      | none => st
    { st with ctrl_stack := res.2, indent := max 1 (st.indent - 1) }
  else st

/-- One iteration of the `for node in steps` loop. -/
def pcStep (st : PCSt) (node : Step) : PCSt :=
  if node.type == "start" || node.type == "end" then st
  else pcHeuristic (pcEmit st node.type node.text) node.text

/-- State after `w("BEGIN"); indent += 1`. -/
def pcInit : PCSt := { pc := [(0, str "BEGIN")], indent := 1, func_stack := [], ctrl_stack := [] }

/-- `while ctrl_stack: end_one_block(...); indent = max(1, indent - 1)`. -/
def unwindCtrl : List String → List (Int × Str) → Int → List (Int × Str) × Int
  | [], pc, ind => (pc, ind)
  | m :: rest, pc, ind =>
    let res := end_one_block (m :: rest)
    let pc :=
      match res.1 with
      | some c => pc ++ [(ind - 1, c)]
      | none => pc
    unwindCtrl rest pc (max 1 (ind - 1))

/-- `while func_stack: name = pop; indent = max(1, indent - 1); w("END PROCEDURE  // " + name)`. -/
def unwindFunc : List Str → List (Int × Str) → Int → List (Int × Str) × Int
  | [], pc, ind => (pc, ind)
  | name :: rest, pc, ind =>
    let ind := max 1 (ind - 1)
    unwindFunc rest (pc ++ [(ind, str "END PROCEDURE  // " ++ name)]) ind

/-- Full renderer state after the loop, both unwinds and the final `END`. -/
def renderState (steps : List Step) : PCSt :=
  let st := steps.foldl pcStep pcInit
  let r1 := unwindCtrl st.ctrl_stack st.pc st.indent
  let r2 := unwindFunc st.func_stack r1.1 r1.2
  let ind := max 0 (r2.2 - 1)
  { pc := r2.1 ++ [(ind, str "END")], indent := ind, func_stack := [], ctrl_stack := [] }

/-- `"  " * indent + s` (Python string repetition clamps negatives to empty). -/
def renderLine (e : Int × Str) : Str := List.replicate (2 * e.1.toNat) ' ' ++ e.2

/-- `"\n".join(...)`. -/
def joinNl : List Str → Str
  | [] => []
  | [l] => l
  | l :: l2 :: ls => l ++ '\n' :: joinNl (l2 :: ls)

/-- `to_pseudocode(steps)`. -/
def to_pseudocode (steps : List Step) : Str :=
  joinNl ((renderState steps).pc.map renderLine)

/-! ## Graph renderer (`escape_mermaid`, `to_mermaid`) -/

/-- Python `s.replace(p, rep)` for a one-character needle. -/
def repl1 (p : Char) (rep : Str) : Str → Str
  | [] => []
  | c :: r => if c == p then rep ++ repl1 p rep r else c :: repl1 p rep r

/-- Python `s.replace(p1p2, rep)` for a two-character needle
(left-to-right, non-overlapping). -/
def repl2 (p1 p2 : Char) (rep : Str) : Str → Str
  | [] => []
  | [c] => [c]
  | c1 :: c2 :: r =>
    if c1 == p1 && c2 == p2 then rep ++ repl2 p1 p2 rep r
    else c1 :: repl2 p1 p2 rep (c2 :: r)

/-- `escape_mermaid(s)`: whitespace collapse + strip, then the source's chain
of bracket removals and character replacements, in the same order. -/
def escape_mermaid (s : Str) : Str :=
  let s := pyStrip (collapseWsAux false s)
  let s := repl1 '[' [] s
  let s := repl1 ']' [] s
  let s := repl1 '\x7b' [] s
  let s := repl1 '\x7d' [] s
  let s := repl1 '(' [] s
  let s := repl1 ')' [] s
  let s := repl2 '<' '<' ['‹', '‹'] s
  let s := repl1 '<' ['‹'] s
  let s := repl1 '>' ['›'] s
  let s := repl1 '"' [] s
  let s := repl1 '“' [] s
  let s := repl1 '”' [] s
  let s := repl1 ';' ['；'] s
  let s := repl1 '\\' ['⧵'] s
  let s := repl1 (Char.ofNat 96) ['ˋ'] s
  s

/-- Categories drawn as decision diamonds (same set in `mm_label` and the
class-assignment loop). -/
def decisionTypes : List String := ["if", "elif", "else", "while", "switch", "case", "default"]

/-- `mm_label(node)` with `ISO_FLOWCHART = True`. -/
def mm_label (n : Step) : Str :=
  let text := if n.text.length > 120 then n.text.take 117 ++ str "..." else n.text
  let text := pyStrip (escape_mermaid text)
  let text := if text.isEmpty then str "NO-OP" else text
  if decisionTypes.contains n.type then n.id.data ++ '\x7b' :: (text ++ [Char.ofNat 125])
  else if n.type == "start" || n.type == "end" then n.id.data ++ '(' :: (text ++ [')'])
  else if n.type == "io_in" || n.type == "io_out" then n.id.data ++ str "[/" ++ text ++ str "/]"
  else n.id.data ++ '[' :: (text ++ [']'])

/-- The `class` line the styling loop emits for one step (none for start/end,
which get their `term` lines separately). -/
def classLineOf (n : Step) : Option Str :=
  if n.type == "io_in" || n.type == "io_out" then
    some (str "  class " ++ n.id.data ++ str " io;")
  else if decisionTypes.contains n.type then
    some (str "  class " ++ n.id.data ++ str " decision;")
  else if !(n.type == "start" || n.type == "end") then
    some (str "  class " ++ n.id.data ++ str " process;")
  else none

/-- One `-->` edge per consecutive step pair. -/
def edgeLines : List Step → List Str
  | [] => []
  | [_] => []
  | a :: b :: rest => (str "  " ++ a.id.data ++ str " --> " ++ b.id.data) :: edgeLines (b :: rest)

/-- The lines of `to_mermaid(steps)` in emission order (the source indexes
`steps[0]`/`steps[-1]` for the terminator class lines; `build_steps` output is
always non-empty, `headD`/`getLastD` stand in for those subscripts). -/
def to_mermaid_lines (steps : List Step) : List Str :=
  [str "flowchart TD"]
  ++ steps.map (fun n => str "  " ++ mm_label n)
  ++ edgeLines steps
  ++ [str "  classDef default stroke:#000,stroke-width:1.5px,fill:#fff,color:#000;",
      str "  classDef term stroke:#000,stroke-width:1.5px,fill:#fff,color:#000;",
      str "  classDef io stroke:#000,stroke-width:1.5px,fill:#fff,color:#000;",
      str "  classDef decision stroke:#000,stroke-width:1.5px,fill:#fff,color:#000;",
      str "  classDef process stroke:#000,stroke-width:1.5px,fill:#fff,color:#000;"]
  ++ [str "  class " ++ (steps.headD default).id.data ++ str " term;",
      str "  class " ++ (steps.getLastD default).id.data ++ str " term;"]
  ++ steps.filterMap classLineOf
  ++ [str "  linkStyle default stroke:#000,stroke-width:1.5px;"]

/-- `to_mermaid(steps)`. -/
def to_mermaid (steps : List Step) : Str := joinNl (to_mermaid_lines steps)

/-! ## Helpers for stating the claims -/

/-- Remainder of `s` strictly after the first occurrence of `p`, if any. -/
def dropAfterFirst (p : Str) : Str → Option Str
  | [] => if p.isEmpty then some [] else none
  | c :: r =>
    if p.isPrefixOf (c :: r) then some ((c :: r).drop p.length)
    else dropAfterFirst p r

/-- Do the given fragments occur in `s`, in this order (disjointly, each
found at its earliest position after the previous one)? -/
def containsInOrder : List Str → Str → Bool
  | [], _ => true
  | p :: ps, s =>
    match dropAfterFirst p s with
    | some rest => containsInOrder ps rest
    | none => false

/-- The six control-stack markers the renderer pushes. -/
def MARKERS : List String := ["IF", "FOR", "WHILE", "DO", "SWITCH", "CASE"]

/-- Closing text for a marker (total version of `closerOf` for counting). -/
def closerText (m : String) : Str := (closerOf m).getD []

/-- Number of emitted lines whose content is exactly the closer of `m`. -/
def countCloser (m : String) (pc : List (Int × Str)) : Nat :=
  pc.countP (fun e => e.2 = closerText m)

/-- The marker a step category pushes, if any. -/
def pushMarker (t : String) : Option String :=
  if t == "if" then some "IF"
  else if t == "for" then some "FOR"
  else if t == "while" then some "WHILE"
  else if t == "do" then some "DO"
  else if t == "switch" then some "SWITCH"
  else if t == "case" || t == "default" then some "CASE"
  else none

/-- Number of steps that push marker `m`. -/
def countPushes (m : String) (steps : List Step) : Nat :=
  steps.countP (fun n => pushMarker n.type == some m)

/-- Number of occurrences of marker `m` on a stack. -/
def countMarker (m : String) (stack : List String) : Nat :=
  stack.countP (fun x => x = m)

/-- Names of the `END PROCEDURE  // <name>` lines, in emission order. -/
def endProcNames (pc : List (Int × Str)) : List Str :=
  pc.filterMap (fun e =>
    if (str "END PROCEDURE  // ").isPrefixOf e.2 then some (e.2.drop 18) else none)

/-- Procedure names pushed by the `function` steps, in step order. -/
def funcPushNames (steps : List Step) : List Str :=
  steps.filterMap (fun n => if n.type == "function" then some (procNameOf n.text) else none)

/-! ## C1: the classifier is total and first-match over the priority order -/

lemma firstMatch_of_no_match (line : Str) :
    ∀ l : List String, (∀ t ∈ l, detect_matches line t = false) → firstMatch line l = "process" := by
  intro l
  induction l with
  | nil => intro _; rfl
  | cons t ts ih =>
    intro h
    have ht : detect_matches line t = false := h t (by simp)
    simp only [firstMatch, ht, Bool.false_eq_true, if_false]
    exact ih (fun u hu => h u (by simp [hu]))

lemma firstMatch_first (line : Str) :
    ∀ (l : List String) (i : Nat), i < l.length → detect_matches line (l.getD i "") = true →
      ∃ j, j ≤ i ∧ firstMatch line l = l.getD j "" ∧
        detect_matches line (l.getD j "") = true ∧
        ∀ k, k < j → detect_matches line (l.getD k "") = false := by
  intro l
  induction l with
  | nil => intro i hi; simp at hi
  | cons t ts ih =>
    intro i hi hd
    by_cases ht : detect_matches line t = true
    · refine ⟨0, Nat.zero_le _, ?_, ?_, ?_⟩
      · simp [firstMatch, ht]
      · simpa using ht
      · intro k hk; exact absurd hk (Nat.not_lt_zero k)
    · have ht' : detect_matches line t = false := by
        cases h : detect_matches line t
        · rfl
        · exact absurd h ht
      cases i with
      | zero => simp at hd; exact absurd hd ht
      | succ i' =>
        have hi' : i' < ts.length := by simpa using hi
        have hd' : detect_matches line (ts.getD i' "") = true := by simpa using hd
        obtain ⟨j, hj, heq, hdet, hbefore⟩ := ih i' hi' hd'
        refine ⟨j + 1, by omega, ?_, by simpa using hdet, ?_⟩
        · simp only [firstMatch, ht', Bool.false_eq_true, if_false]
          simpa using heq
        · intro k hk
          cases k with
          | zero => simpa using ht'
          | succ k' => simpa using hbefore k' (by omega)

/-- C1: `line_to_step` is total and order-sensitive.  For every line, if no
category of the fixed priority order (function, if, elif, else, for, while,
do, switch, case, default, return, io_in, io_out) matches, the result is
`process`; and whenever some category at position `i` matches, the result is
the first matching category: some position `j ≤ i` that matches while every
earlier position does not. -/
theorem line_to_step_first_match (line : Str) :
    ((∀ t ∈ stepOrder, detect_matches line t = false) → line_to_step line = "process") ∧
    (∀ i, i < stepOrder.length → detect_matches line (stepOrder.getD i "") = true →
      ∃ j, j ≤ i ∧ line_to_step line = stepOrder.getD j "" ∧
        detect_matches line (stepOrder.getD j "") = true ∧
        ∀ k, k < j → detect_matches line (stepOrder.getD k "") = false) := by
  constructor
  · intro h; exact firstMatch_of_no_match line stepOrder h
  · intro i hi hd; exact firstMatch_first line stepOrder i hi hd

/-- Witness for C1 at the concrete line `return x`: position 10 (`return`)
matches, and the classifier indeed returns the first matching category. -/
theorem line_to_step_first_match_witness :
    ∃ j, j ≤ 10 ∧ line_to_step (str "return x") = stepOrder.getD j "" ∧
      detect_matches (str "return x") (stepOrder.getD j "") = true ∧
      ∀ k, k < j → detect_matches (str "return x") (stepOrder.getD k "") = false :=
  (line_to_step_first_match (str "return x")).2 10 (by decide) (by decide)

/-! ## C2: step-builder shape: length, start/end markers, dense ids -/

lemma build_steps_core_length (nid : Nat) (norm : List NL) :
    (build_steps_core nid norm).length = norm.length := by
  induction norm generalizing nid with
  | nil => rfl
  | cons p rest ih =>
    obtain ⟨ind, text⟩ := p
    simp [build_steps_core, ih]

lemma build_steps_core_id (norm : List NL) :
    ∀ (nid k : Nat), k < norm.length →
      ((build_steps_core nid norm).getD k default).id = "N" ++ toString (nid + k) := by
  induction norm with
  | nil => intro nid k hk; simp at hk
  | cons p rest ih =>
    intro nid k hk
    obtain ⟨ind, text⟩ := p
    cases k with
    | zero => simp [build_steps_core]
    | succ k' =>
      have hk' : k' < rest.length := by simpa using hk
      have h := ih (nid + 1) k' hk'
      have harith : nid + 1 + k' = nid + (k' + 1) := by omega
      rw [harith] at h
      simpa [build_steps_core] using h

/-- C2: `build_steps` returns `len(norm) + 2` steps, the first of category
`start`, the last of category `end`, and assigns the dense sequential
identifiers `N0, N1, ...` in order. -/
theorem build_steps_shape (norm : List NL) :
    (build_steps norm).length = norm.length + 2 ∧
    ((build_steps norm).headD default).type = "start" ∧
    ((build_steps norm).getLastD default).type = "end" ∧
    ∀ k, k < norm.length + 2 → ((build_steps norm).getD k default).id = "N" ++ toString k := by
  refine ⟨?_, ?_, ?_, ?_⟩
  · simp [build_steps, build_steps_core_length]
  · simp [build_steps]
  · unfold build_steps
    rw [List.getLastD_concat]
  · intro k hk
    cases k with
    | zero =>
      simp only [build_steps, List.cons_append, List.getD_cons_zero]
      decide
    | succ j =>
      have hcore := build_steps_core_length 1 norm
      by_cases hj : j < norm.length
      · have hleft : ((build_steps_core 1 norm ++
            [{ id := "N" ++ toString (norm.length + 1), type := "end", text := str "END",
               indent := 0 : Step }]).getD j default)
            = ((build_steps_core 1 norm).getD j default) := by
          apply List.getD_append
          omega
        have harith : 1 + j = j + 1 := by omega
        have hid := build_steps_core_id norm 1 j hj
        rw [harith] at hid
        simp only [build_steps, List.cons_append, List.getD_cons_succ]
        rw [hleft, hid]
      · have hj' : j = norm.length := by omega
        subst hj'
        simp only [build_steps, List.cons_append, List.getD_cons_succ]
        rw [List.getD_append_right _ _ _ _ (by omega)]
        simp [hcore]

/-- Witness for C2 at a one-line input: three steps, and the middle id is `N1`. -/
theorem build_steps_shape_witness :
    (build_steps [((0 : Int), str "x = 1")]).length = 3 ∧
    ((build_steps [((0 : Int), str "x = 1")]).getD 1 default).id = "N" ++ toString 1 :=
  ⟨(build_steps_shape [((0 : Int), str "x = 1")]).1,
   (build_steps_shape [((0 : Int), str "x = 1")]).2.2.2 1 (by omega)⟩

/-! ## C3: normalized depths are never negative -/

lemma normLine_nonneg (lang : String) (acc : Int × List NL) (raw : Str)
    (h1 : 0 ≤ acc.1) (h2 : ∀ p ∈ acc.2, 0 ≤ p.1) :
    0 ≤ (normLine lang acc raw).1 ∧ ∀ p ∈ (normLine lang acc raw).2, 0 ≤ p.1 := by
  have hn : (0 : Int) ≤ Int.ofNat (leadSpaces (rstripNl raw) / 4) := Int.ofNat_nonneg _
  simp only [normLine]
  split_ifs <;> (try dsimp only) <;>
    refine ⟨by omega, fun p hp => ?_⟩ <;>
    first
      | exact h2 p hp
      | (rcases List.mem_append.1 hp with hp2 | hp2
         · exact h2 p hp2
         · obtain rfl := List.mem_singleton.1 hp2
           (try dsimp only)
           omega)

lemma normalize_fold_nonneg (lang : String) :
    ∀ (lines : List Str) (acc : Int × List NL), 0 ≤ acc.1 → (∀ p ∈ acc.2, 0 ≤ p.1) →
      ∀ p ∈ (lines.foldl (normLine lang) acc).2, 0 ≤ p.1 := by
  intro lines
  induction lines with
  | nil => intro acc h1 h2; simpa using h2
  | cons raw rest ih =>
    intro acc h1 h2
    have hstep := normLine_nonneg lang acc raw h1 h2
    simpa using ih (normLine lang acc raw) hstep.1 hstep.2

/-- C3: for every input line sequence and every language selector, no
normalized line carries a negative nesting depth, however many unmatched
closing tokens the input contains. -/
theorem normalize_depth_nonneg (lines : List Str) (lang : String) :
    ∀ p ∈ normalize_indentation lines lang, 0 ≤ p.1 := by
  intro p hp
  exact normalize_fold_nonneg lang lines (0, []) le_rfl (by simp) p hp

/-- Witness for C3 on an input that starts with unmatched closing braces:
the sole recorded line has depth `0 ≥ 0`. -/
theorem normalize_depth_nonneg_witness :
    ((0 : Int), str "x = 1") ∈ normalize_indentation [str "\x7d", str "\x7d", str "x = 1"] "c" ∧
    (0 : Int) ≤ ((0 : Int), str "x = 1").1 :=
  ⟨by decide,
   normalize_depth_nonneg [str "\x7d", str "\x7d", str "x = 1"] "c" _ (by decide)⟩

/-! ## C6: recorded depths in the indentation family -/

/-- What the indentation family actually records per input line: the line is
dropped if blank, comment-only, or a pure brace token; otherwise its depth
is exactly leading-spaces `/ 4`.  (The colon-keyword rule of the source only
bumps the running counter, which is recomputed from whitespace before any
later line is recorded.) -/
def pyRecord (raw : Str) : Option NL :=
  let line := rstripNl raw
  let stripped := pyStrip line
  if stripped.isEmpty || startsW stripped "//" || startsW stripped "#" || startsW stripped "/*" then
    none
  else if stripped == str "\x7d" || stripped == str "\x7d;" then none
  else if stripped == str "\x7b" then none
  else some (Int.ofNat (leadSpaces line / 4), stripped)

lemma normalize_python_fold (lines : List Str) :
    ∀ (lvl : Int) (acc : List NL),
      (lines.foldl (normLine "python") (lvl, acc)).2 = acc ++ lines.filterMap pyRecord := by
  induction lines with
  | nil => intro lvl acc; simp
  | cons raw rest ih =>
    intro lvl acc
    simp only [List.foldl_cons, List.filterMap_cons, pyRecord, normLine, beq_self_eq_true,
      bne_self_eq_false, Bool.false_and, Bool.true_and, if_true, if_false, Bool.false_eq_true]
    split_ifs <;> simp [ih]

/-- C6 (amended): in the indentation family a recorded line's depth is always
its count of leading spaces integer-divided by 4; the colon/keyword increment
only touches the running counter, which is recomputed from whitespace before
the next line is recorded, so it never shifts any recorded depth. -/
theorem normalize_python_depths (lines : List Str) :
    normalize_indentation lines "python" = lines.filterMap pyRecord := by
  unfold normalize_indentation
  simpa using normalize_python_fold lines 0 []

/-- C6 counterexample: `y = 1` directly follows the colon-header `if x:`, so
the claim records it at `0 / 4 + 1 = 1`, but the code records it at depth 0. -/
theorem normalize_python_colon_cex :
    normalize_indentation [str "if x:", str "y = 1"] "python"
      = [((0 : Int), str "if x:"), ((0 : Int), str "y = 1")] ∧
    ¬ (((normalize_indentation [str "if x:", str "y = 1"] "python").getD 1 ((0 : Int), [])).1
        = Int.ofNat (leadSpaces (str "y = 1") / 4) + 1) := by
  constructor
  · decide
  · decide

/-! ## C10: pure brace tokens in the normalizer loop -/

/-- C10 (amended): a stripped `}` or `};` line records nothing and decrements
the counter clamped at zero in every family; a stripped `{` line records
nothing, increments the counter in brace families, and in the indentation
family resets it to the line's leading-spaces `/ 4` (the whitespace recompute
runs before the lone-brace check), rather than leaving it unchanged. -/
theorem normLine_brace_behavior (lang : String) (lvl : Int) (out : List NL) (raw : Str) :
    ((pyStrip (rstripNl raw) = str "\x7d" ∨ pyStrip (rstripNl raw) = str "\x7d;") →
      normLine lang (lvl, out) raw = (max 0 (lvl - 1), out)) ∧
    (pyStrip (rstripNl raw) = str "\x7b" →
      (normLine lang (lvl, out) raw).2 = out ∧
      (lang ≠ "python" → (normLine lang (lvl, out) raw).1 = lvl + 1) ∧
      (lang = "python" → (normLine lang (lvl, out) raw).1
          = Int.ofNat (leadSpaces (rstripNl raw) / 4))) := by
  constructor
  · intro h
    rcases h with h | h <;>
      (simp only [normLine, h]
       rw [if_neg (by decide), if_pos (by decide)])
  · intro h
    simp only [normLine, h]
    rw [if_neg (by decide), if_neg (by decide), if_pos (by decide)]
    refine ⟨?_, ?_, ?_⟩
    · split_ifs <;> rfl
    · intro hl
      have hb : (lang == "python") = false := by simpa using hl
      simp [hb, hl]
    · intro hl
      subst hl
      simp

/-- C10 counterexample: in the indentation family a lone `{` line does change
the running counter: from 5 it is reset to `0 / 4 = 0`. -/
theorem normLine_python_brace_cex :
    normLine "python" ((5 : Int), []) (str "\x7b") = ((0 : Int), []) ∧ (0 : Int) ≠ 5 := by
  constructor
  · decide
  · decide

/-- Witness for C10 in a brace family: a lone `}` line decrements 2 to 1
and records nothing. -/
theorem normLine_brace_behavior_witness :
    normLine "c" ((2 : Int), []) (str "\x7d") = (max 0 ((2 : Int) - 1), []) ∧
    max 0 ((2 : Int) - 1) = 1 :=
  ⟨(normLine_brace_behavior "c" 2 [] (str "\x7d")).1 (Or.inl (by decide)), by decide⟩

/-! ## C4: the function-with-conditional scenario -/

def c4input : List Str :=
  [str "def f(x):", str "    if x > 0:", str "        return x", str "    return -x"]

def c4steps : List Step := build_steps (normalize_indentation c4input "python")

/-- C4 counterexample: the spec's six fragments do not occur in its claimed
order; the renderer ignores nesting depth and closes the IF block only at
end of input, so `END IF` is emitted after `RETURN -x`. -/
theorem c4_order_cex :
    containsInOrder [str "PROCEDURE f(...)", str "IF x > 0 THEN", str "RETURN x",
      str "END IF", str "RETURN -x", str "END PROCEDURE  // f"]
      (to_pseudocode c4steps) = false := by
  decide

/-- C4 (amended): the scenario produces exactly this pseudocode, whose
fragments occur in the order PROCEDURE, IF, RETURN x, RETURN -x, END IF,
END PROCEDURE. -/
theorem c4_order_amended :
    to_pseudocode c4steps
      = str "BEGIN\n  PROCEDURE f(...)\n    IF x > 0 THEN\n      RETURN x\n      RETURN -x\n    END IF\n  END PROCEDURE  // f\nEND" ∧
    containsInOrder [str "PROCEDURE f(...)", str "IF x > 0 THEN", str "RETURN x",
      str "RETURN -x", str "END IF", str "END PROCEDURE  // f"]
      (to_pseudocode c4steps) = true := by
  constructor
  · decide
  · decide

/-! ## C5: the brace-loop scenario -/

def c5input : List Str := [str "for (i=0;i<10;i++) \x7b", str "printf(\"hi\");", str "\x7d"]

def c5steps : List Step := build_steps (normalize_indentation c5input "c")

/-- C5 counterexample: the graph has one process-class and zero decision-class
nodes between start and end (not three), and the pseudocode contains
`OUTPUT ←  printf("hi");` rather than the claimed `PROCESS printf("hi");`
(`printf` is classified as io_out, which outranks the process fallback). -/
theorem c5_scenario_cex :
    ((c5steps.filterMap classLineOf).countP
        (fun l => (str " process;").isSuffixOf l || (str " decision;").isSuffixOf l) = 1
      ∧ (1 : Nat) ≠ 3) ∧
    containsInOrder [str "PROCESS printf(\"hi\");"] (to_pseudocode c5steps) = false := by
  constructor
  · constructor
    · decide
    · decide
  · decide

/-- C5 (amended): the scenario yields four steps; between start and end sit
one process node (the for header) and one io node, and the pseudocode is
exactly `FOR i=0;i<10;i++ DO` / `OUTPUT ←  printf("hi");` / `END FOR`
inside BEGIN/END. -/
theorem c5_scenario_amended :
    c5steps.length = 4 ∧
    c5steps.filterMap classLineOf = [str "  class N1 process;", str "  class N2 io;"] ∧
    c5steps.map (fun n => str "  " ++ mm_label n)
      = [str "  N0(START)", str "  N1[for i=0；i‹10；i++]", str "  N2[/printfhi；/]",
         str "  N3(END)"] ∧
    to_pseudocode c5steps
      = str "BEGIN\n  FOR i=0;i<10;i++ DO\n    OUTPUT ←  printf(\"hi\");\n  END FOR\nEND" ∧
    containsInOrder [str "FOR i=0;i<10;i++ DO", str "OUTPUT ←  printf(\"hi\");", str "END FOR"]
      (to_pseudocode c5steps) = true := by
  refine ⟨by decide, by decide, by decide, by decide, by decide⟩

/-! ## C9: relative priority of conditionals and the function pattern -/

def c9line : Str := str "void f(int a) \x7b if (a) x(); \x7d"

/-- C9 counterexample: this line matches both the `if` patterns and the
generic function-definition pattern, and the classifier returns `function`,
not the conditional category. -/
theorem classifier_function_before_if_cex :
    detect_matches c9line "if" = true ∧ detect_matches c9line "function" = true ∧
    line_to_step c9line = "function" ∧ line_to_step c9line ≠ "if" := by
  refine ⟨by decide, by decide, by decide, by decide⟩

/-- C9 (amended): `function` is the first category tested, so any line
matching a function pattern — whether or not it also matches a conditional
pattern — is classified `function`; conditionals are checked after it, not
before. -/
theorem classifier_function_first (line : Str)
    (h : detect_matches line "function" = true) : line_to_step line = "function" := by
  simp [line_to_step, stepOrder, firstMatch, h]

/-- Witness for C9 (amended) at the concrete mixed line. -/
theorem classifier_function_first_witness :
    line_to_step c9line = "function" :=
  classifier_function_first c9line (by decide)

/-! ## C8: the graph label sanitizer never emits grammar-significant characters -/

/-- The characters the claim forbids in sanitized labels. -/
def bannedMermaidChars : Str := ['[', ']', '\x7b', '\x7d', '(', ')', '<', '>', '"']

lemma mem_repl1 {a p : Char} {rep : Str} :
    ∀ {s : Str}, a ∈ repl1 p rep s → a ∈ rep ∨ (a ∈ s ∧ a ≠ p) := by
  intro s
  induction s with
  | nil => intro h; simp [repl1] at h
  | cons c r ih =>
    intro h
    by_cases hc : (c == p) = true
    · rw [repl1, if_pos hc] at h
      rcases List.mem_append.1 h with h | h
      · exact Or.inl h
      · rcases ih h with h | ⟨h1, h2⟩
        · exact Or.inl h
        · exact Or.inr ⟨List.mem_cons_of_mem _ h1, h2⟩
    · rw [repl1, if_neg hc] at h
      rcases List.mem_cons.1 h with rfl | h
      · refine Or.inr ⟨List.mem_cons_self _ _, ?_⟩
        simpa using hc
      · rcases ih h with h | ⟨h1, h2⟩
        · exact Or.inl h
        · exact Or.inr ⟨List.mem_cons_of_mem _ h1, h2⟩

lemma mem_repl2_aux {a p1 p2 : Char} {rep : Str} :
    ∀ (n : Nat) (s : Str), s.length ≤ n → a ∈ repl2 p1 p2 rep s → a ∈ rep ∨ a ∈ s := by
  intro n
  induction n with
  | zero =>
    intro s hs h
    match s with
    | [] => simp [repl2] at h
    | c :: r => simp at hs
  | succ n ih =>
    intro s hs h
    match s with
    | [] => simp [repl2] at h
    | [c] =>
      rw [repl2] at h
      exact Or.inr h
    | c1 :: c2 :: r =>
      rw [repl2] at h
      by_cases hc : (c1 == p1 && c2 == p2) = true
      · rw [if_pos hc] at h
        rcases List.mem_append.1 h with h | h
        · exact Or.inl h
        · rcases ih r (by simp at hs ⊢; omega) h with h | h
          · exact Or.inl h
          · exact Or.inr (by simp [h])
      · rw [if_neg hc] at h
        rcases List.mem_cons.1 h with rfl | h
        · exact Or.inr (List.mem_cons_self _ _)
        · rcases ih (c2 :: r) (by simp at hs ⊢; omega) h with h | h
          · exact Or.inl h
          · exact Or.inr (List.mem_cons_of_mem _ h)

lemma mem_repl2 {a p1 p2 : Char} {rep s : Str} (h : a ∈ repl2 p1 p2 rep s) :
    a ∈ rep ∨ a ∈ s :=
  mem_repl2_aux s.length s le_rfl h

lemma escape_mermaid_no_banned (s : Str) : ∀ c ∈ escape_mermaid s, c ∉ bannedMermaidChars := by
  intro c hc hb
  simp only [escape_mermaid] at hc
  rcases mem_repl1 hc with h | ⟨hc, hbt⟩
  · obtain rfl := List.mem_singleton.1 h
    exact absurd hb (by decide)
  rcases mem_repl1 hc with h | ⟨hc, hbs⟩
  · obtain rfl := List.mem_singleton.1 h
    exact absurd hb (by decide)
  rcases mem_repl1 hc with h | ⟨hc, hsemi⟩
  · obtain rfl := List.mem_singleton.1 h
    exact absurd hb (by decide)
  rcases mem_repl1 hc with h | ⟨hc, hq3⟩
  · simp at h
  rcases mem_repl1 hc with h | ⟨hc, hq2⟩
  · simp at h
  rcases mem_repl1 hc with h | ⟨hc, hq1⟩
  · simp at h
  rcases mem_repl1 hc with h | ⟨hc, hgt⟩
  · obtain rfl := List.mem_singleton.1 h
    exact absurd hb (by decide)
  rcases mem_repl1 hc with h | ⟨hc, hlt⟩
  · obtain rfl := List.mem_singleton.1 h
    exact absurd hb (by decide)
  rcases mem_repl2 hc with h | hc
  · have : c = '‹' := by
      rcases List.mem_cons.1 h with rfl | h
      · rfl
      · exact List.mem_singleton.1 h
    subst this
    exact absurd hb (by decide)
  rcases mem_repl1 hc with h | ⟨hc, hpr⟩
  · simp at h
  rcases mem_repl1 hc with h | ⟨hc, hpl⟩
  · simp at h
  rcases mem_repl1 hc with h | ⟨hc, hbr⟩
  · simp at h
  rcases mem_repl1 hc with h | ⟨hc, hbl⟩
  · simp at h
  rcases mem_repl1 hc with h | ⟨hc, hsr⟩
  · simp at h
  rcases mem_repl1 hc with h | ⟨hc, hsl⟩
  · simp at h
  simp only [bannedMermaidChars, List.mem_cons, List.mem_singleton, List.not_mem_nil,
    or_false] at hb
  rcases hb with rfl | rfl | rfl | rfl | rfl | rfl | rfl | rfl | rfl <;>
    first
      | exact hsl rfl
      | exact hsr rfl
      | exact hbl rfl
      | exact hbr rfl
      | exact hpl rfl
      | exact hpr rfl
      | exact hlt rfl
      | exact hgt rfl
      | exact hq1 rfl

/-- C8: for every input string, the graph label sanitizer's output contains
none of `[`, `]`, `{`, `}`, `(`, `)`, `<`, `>`, `"` (angle brackets are
replaced by `‹`/`›`, quotes and brackets are removed). -/
theorem escape_mermaid_label_safe (s : Str) :
    (escape_mermaid s).all (fun c => !(bannedMermaidChars.contains c)) = true := by
  rw [List.all_eq_true]
  intro c hc
  have h := escape_mermaid_no_banned s c hc
  simpa [List.contains, List.elem_iff] using h

/-! ## C7: the pseudocode renderer unwinds both stacks completely -/

/-- Closer-weight of one stack entry with respect to marker `m`: 1 iff popping
it emits exactly the closing text of `m`. -/
def stackContrib (m : String) (stack : List String) : Nat :=
  stack.countP (fun x => (closerOf x).isSome && decide (closerText x = closerText m))

/-- Closer-weight contributed by one step category. -/
def pushContrib (m t : String) : Nat :=
  match pushMarker t with
  | some mk => if (closerOf mk).isSome && decide (closerText mk = closerText m) then 1 else 0
  | none => 0

lemma closerText_cases (m : String) :
    closerText m = [] ∨ closerText m ∈ [str "END IF", str "END FOR", str "END WHILE",
      str "END DO", str "END SWITCH", str "// END CASE"] := by
  unfold closerText closerOf
  split_ifs <;> simp

lemma emission_ne_closerText (m : String) (l : Str)
    (h1 : decide (l = str "END IF") = false) (h2 : decide (l = str "END FOR") = false)
    (h3 : decide (l = str "END WHILE") = false) (h4 : decide (l = str "END DO") = false)
    (h5 : decide (l = str "END SWITCH") = false) (h6 : decide (l = str "// END CASE") = false)
    (h0 : l ≠ []) : decide (l = closerText m) = false := by
  apply decide_eq_false
  intro heq
  rcases closerText_cases m with hc | hc
  · rw [hc] at heq; exact h0 heq
  · simp only [List.mem_cons, List.mem_singleton, List.not_mem_nil, or_false] at hc
    rcases hc with hc | hc | hc | hc | hc | hc <;> rw [hc] at heq
    · exact of_decide_eq_false h1 heq
    · exact of_decide_eq_false h2 heq
    · exact of_decide_eq_false h3 heq
    · exact of_decide_eq_false h4 heq
    · exact of_decide_eq_false h5 heq
    · exact of_decide_eq_false h6 heq

lemma countCloser_append_ne (m : String) (pc : List (Int × Str)) (i : Int) (l : Str)
    (h : decide (l = closerText m) = false) :
    countCloser m (pc ++ [(i, l)]) = countCloser m pc := by
  simp [countCloser, List.countP_append, List.countP_cons, h]

lemma countCloser_append (m : String) (pc : List (Int × Str)) (i : Int) (l : Str) :
    countCloser m (pc ++ [(i, l)])
      = countCloser m pc + (if l = closerText m then 1 else 0) := by
  simp [countCloser, List.countP_append, List.countP_cons]

lemma endProcNames_append_ne (pc : List (Int × Str)) (i : Int) (l : Str)
    (h : (str "END PROCEDURE  // ").isPrefixOf l = false) :
    endProcNames (pc ++ [(i, l)]) = endProcNames pc := by
  simp only [endProcNames, List.filterMap_append, List.filterMap_cons, h,
    Bool.false_eq_true, if_false]
  simp

lemma endProcNames_append_proc (pc : List (Int × Str)) (i : Int) (name : Str) :
    endProcNames (pc ++ [(i, str "END PROCEDURE  // " ++ name)])
      = endProcNames pc ++ [name] := by
  have hpre : (str "END PROCEDURE  // ").isPrefixOf (str "END PROCEDURE  // " ++ name) = true :=
    List.isPrefixOf_iff_prefix.mpr (List.prefix_append _ _)
  have hdrop : (str "END PROCEDURE  // " ++ name).drop 18 = name := by
    have hlen : (str "END PROCEDURE  // ").length = 18 := by decide
    rw [← hlen, List.drop_left]
  simp only [endProcNames, List.filterMap_append, List.filterMap_cons, hpre, if_true, hdrop]
  simp

lemma closer_not_endproc {m' : String} {c : Str} (h : closerOf m' = some c) :
    (str "END PROCEDURE  // ").isPrefixOf c = false := by
  unfold closerOf at h
  split_ifs at h <;> cases h <;> rfl

lemma head_ne_closer (m : String) {a : Char} {l : Str} (hE : a ≠ 'E') (hS : a ≠ '/') :
    decide ((a :: l) = closerText m) = false := by
  apply decide_eq_false
  intro heq
  rcases closerText_cases m with hc | hc
  · rw [hc] at heq
    exact List.cons_ne_nil a l heq
  · simp only [List.mem_cons, List.mem_singleton, List.not_mem_nil, or_false] at hc
    rcases hc with hc | hc | hc | hc | hc | hc <;> rw [hc] at heq <;>
      (injection heq with hh _
       first
         | exact hE hh
         | exact hS hh)

lemma second_ne_closer (m : String) {b : Char} {l : Str} (hN : b ≠ 'N') :
    decide (('E' :: b :: l) = closerText m) = false := by
  apply decide_eq_false
  intro heq
  rcases closerText_cases m with hc | hc
  · rw [hc] at heq
    exact List.cons_ne_nil _ _ heq
  · simp only [List.mem_cons, List.mem_singleton, List.not_mem_nil, or_false] at hc
    rcases hc with hc | hc | hc | hc | hc | hc <;> rw [hc] at heq <;>
      first
        | (injection heq with hh heq
           injection heq with hh2 _
           exact hN hh2)
        | (injection heq with hh _
           exact absurd hh (by decide))

lemma pcEmit_all (m : String) (st : PCSt) (t : String) (txt : Str) :
    countCloser m (pcEmit st t txt).pc = countCloser m st.pc ∧
    endProcNames (pcEmit st t txt).pc = endProcNames st.pc ∧
    stackContrib m (pcEmit st t txt).ctrl_stack
      = stackContrib m st.ctrl_stack + pushContrib m t ∧
    (pcEmit st t txt).func_stack
      = (if t == "function" then [procNameOf txt] else []) ++ st.func_stack := by
  by_cases h1 : (t == "function") = true
  · rw [beq_iff_eq] at h1; subst h1
    refine ⟨?_, ?_, ?_, ?_⟩ <;>
      first
        | (apply countCloser_append_ne
           exact head_ne_closer m (by decide) (by decide))
        | (apply endProcNames_append_ne
           rfl)
        | rfl
        | simp +decide [pcEmit, wLine, stackContrib, pushContrib, pushMarker, List.countP_cons]
  by_cases h2 : (t == "return") = true
  · rw [beq_iff_eq] at h2; subst h2
    have hred : pcEmit st "return" txt
        = wLine st (if !(returnValOf txt).isEmpty then str "RETURN " ++ returnValOf txt
            else str "RETURN") := rfl
    rw [hred]
    by_cases hv : (!(returnValOf txt).isEmpty) = true <;>
      [rw [if_pos hv]; rw [if_neg hv]] <;>
      refine ⟨?_, ?_, ?_, ?_⟩ <;>
      first
        | (apply countCloser_append_ne
           exact head_ne_closer m (by decide) (by decide))
        | (apply endProcNames_append_ne
           rfl)
        | rfl
        | simp +decide [pcEmit, wLine, stackContrib, pushContrib, pushMarker, List.countP_cons]
  by_cases h3 : (t == "if") = true
  · rw [beq_iff_eq] at h3; subst h3
    refine ⟨?_, ?_, ?_, ?_⟩ <;>
      first
        | (apply countCloser_append_ne
           exact head_ne_closer m (by decide) (by decide))
        | (apply endProcNames_append_ne
           rfl)
        | rfl
        | simp +decide [pcEmit, wLine, stackContrib, pushContrib, pushMarker, List.countP_cons]
  by_cases h4 : (t == "elif") = true
  · rw [beq_iff_eq] at h4; subst h4
    have hred : pcEmit st "elif" txt
        = if (st.ctrl_stack.head? == some "IF") = true then
            { pc := st.pc ++ [(max 1 (st.indent - 1),
                str "ELSE IF " ++ extract_condition txt ++ str " THEN")],
              indent := max 1 (st.indent - 1) + 1, func_stack := st.func_stack,
              ctrl_stack := st.ctrl_stack }
          else
            { pc := st.pc ++ [(st.indent, str "ELSE IF " ++ extract_condition txt ++ str " THEN")],
              indent := st.indent, func_stack := st.func_stack,
              ctrl_stack := st.ctrl_stack } := rfl
    rw [hred]
    split_ifs with hh <;> refine ⟨?_, ?_, ?_, ?_⟩ <;>
      first
        | (apply countCloser_append_ne
           exact second_ne_closer m (by decide))
        | (apply endProcNames_append_ne
           rfl)
        | rfl
        | simp +decide [pcEmit, wLine, stackContrib, pushContrib, pushMarker, List.countP_cons]
  by_cases h5 : (t == "else") = true
  · rw [beq_iff_eq] at h5; subst h5
    have hred : pcEmit st "else" txt
        = if (st.ctrl_stack.head? == some "IF") = true then
            { pc := st.pc ++ [(max 1 (st.indent - 1), str "ELSE")],
              indent := max 1 (st.indent - 1) + 1, func_stack := st.func_stack,
              ctrl_stack := st.ctrl_stack }
          else
            { pc := st.pc ++ [(st.indent, str "ELSE")],
              indent := st.indent, func_stack := st.func_stack,
              ctrl_stack := st.ctrl_stack } := rfl
    rw [hred]
    split_ifs with hh <;> refine ⟨?_, ?_, ?_, ?_⟩ <;>
      first
        | (apply countCloser_append_ne
           exact second_ne_closer m (by decide))
        | (apply endProcNames_append_ne
           rfl)
        | rfl
        | simp +decide [pcEmit, wLine, stackContrib, pushContrib, pushMarker, List.countP_cons]
  by_cases h6 : (t == "for") = true
  · rw [beq_iff_eq] at h6; subst h6
    refine ⟨?_, ?_, ?_, ?_⟩ <;>
      first
        | (apply countCloser_append_ne
           exact head_ne_closer m (by decide) (by decide))
        | (apply endProcNames_append_ne
           rfl)
        | rfl
        | simp +decide [pcEmit, wLine, stackContrib, pushContrib, pushMarker, List.countP_cons]
  by_cases h7 : (t == "while") = true
  · rw [beq_iff_eq] at h7; subst h7
    refine ⟨?_, ?_, ?_, ?_⟩ <;>
      first
        | (apply countCloser_append_ne
           exact head_ne_closer m (by decide) (by decide))
        | (apply endProcNames_append_ne
           rfl)
        | rfl
        | simp +decide [pcEmit, wLine, stackContrib, pushContrib, pushMarker, List.countP_cons]
  by_cases h8 : (t == "do") = true
  · rw [beq_iff_eq] at h8; subst h8
    refine ⟨?_, ?_, ?_, ?_⟩ <;>
      first
        | (apply countCloser_append_ne
           exact head_ne_closer m (by decide) (by decide))
        | (apply endProcNames_append_ne
           rfl)
        | rfl
        | simp +decide [pcEmit, wLine, stackContrib, pushContrib, pushMarker, List.countP_cons]
  by_cases h9 : (t == "switch") = true
  · rw [beq_iff_eq] at h9; subst h9
    refine ⟨?_, ?_, ?_, ?_⟩ <;>
      first
        | (apply countCloser_append_ne
           exact head_ne_closer m (by decide) (by decide))
        | (apply endProcNames_append_ne
           rfl)
        | rfl
        | simp +decide [pcEmit, wLine, stackContrib, pushContrib, pushMarker, List.countP_cons]
  by_cases h10 : (t == "case") = true
  · rw [beq_iff_eq] at h10; subst h10
    refine ⟨?_, ?_, ?_, ?_⟩ <;>
      first
        | (apply countCloser_append_ne
           exact head_ne_closer m (by decide) (by decide))
        | (apply endProcNames_append_ne
           rfl)
        | rfl
        | simp +decide [pcEmit, wLine, stackContrib, pushContrib, pushMarker, List.countP_cons]
  by_cases h11 : (t == "default") = true
  · rw [beq_iff_eq] at h11; subst h11
    refine ⟨?_, ?_, ?_, ?_⟩ <;>
      first
        | (apply countCloser_append_ne
           exact head_ne_closer m (by decide) (by decide))
        | (apply endProcNames_append_ne
           rfl)
        | rfl
        | simp +decide [pcEmit, wLine, stackContrib, pushContrib, pushMarker, List.countP_cons]
  by_cases h12 : (t == "io_in") = true
  · rw [beq_iff_eq] at h12; subst h12
    refine ⟨?_, ?_, ?_, ?_⟩ <;>
      first
        | (apply countCloser_append_ne
           exact head_ne_closer m (by decide) (by decide))
        | (apply endProcNames_append_ne
           rfl)
        | rfl
        | simp +decide [pcEmit, wLine, stackContrib, pushContrib, pushMarker, List.countP_cons]
  by_cases h13 : (t == "io_out") = true
  · rw [beq_iff_eq] at h13; subst h13
    refine ⟨?_, ?_, ?_, ?_⟩ <;>
      first
        | (apply countCloser_append_ne
           exact head_ne_closer m (by decide) (by decide))
        | (apply endProcNames_append_ne
           rfl)
        | rfl
        | simp +decide [pcEmit, wLine, stackContrib, pushContrib, pushMarker, List.countP_cons]
  · have hred : pcEmit st t txt
        = { pc := st.pc ++ [(st.indent, str "PROCESS " ++ txt)], indent := st.indent,
            func_stack := st.func_stack, ctrl_stack := st.ctrl_stack } := by
      simp only [pcEmit, wLine]
      rw [if_neg h1, if_neg h2, if_neg h3, if_neg h4, if_neg h5, if_neg h6, if_neg h7,
        if_neg h8, if_neg h9, if_neg h10, if_neg h11, if_neg h12, if_neg h13]
    have hcd : ¬((t == "case" || t == "default") = true) := by
      intro hc
      rcases (Bool.or_eq_true _ _).mp hc with h | h
      · exact h10 h
      · exact h11 h
    have hpm : pushMarker t = none := by
      unfold pushMarker
      rw [if_neg h3, if_neg h6, if_neg h7, if_neg h8, if_neg h9, if_neg hcd]
    rw [hred]
    refine ⟨?_, ?_, ?_, ?_⟩
    · apply countCloser_append_ne
      exact head_ne_closer m (by decide) (by decide)
    · apply endProcNames_append_ne
      rfl
    · simp [pushContrib, hpm]
    · rw [if_neg h1]
      simp

lemma pcHeuristic_counts (m : String) (st : PCSt) (txt : Str) :
    countCloser m (pcHeuristic st txt).pc + stackContrib m (pcHeuristic st txt).ctrl_stack
      = countCloser m st.pc + stackContrib m st.ctrl_stack ∧
    endProcNames (pcHeuristic st txt).pc = endProcNames st.pc ∧
    (pcHeuristic st txt).func_stack = st.func_stack := by
  unfold pcHeuristic
  split_ifs with hcond
  · rcases hstack : st.ctrl_stack with _ | ⟨m', rest⟩
    · rw [hstack] at hcond; simp at hcond
    · simp only [hstack, end_one_block]
      rcases hcl : closerOf m' with _ | c
      · simp only [hcl]
        refine ⟨?_, by simp, by simp⟩
        simp [stackContrib, List.countP_cons, hcl]
      · simp only [hcl]
        have hct : closerText m' = c := by rw [closerText, hcl]; rfl
        refine ⟨?_, ?_, by simp⟩
        · rw [countCloser_append]
          simp only [stackContrib, List.countP_cons, hcl, hct, Option.isSome_some,
            Bool.true_and]
          simp only [decide_eq_true_eq]
          by_cases hcm : c = closerText m <;> simp [hcm] <;> omega
        · exact endProcNames_append_ne _ _ _ (closer_not_endproc hcl)
  · exact ⟨rfl, rfl, rfl⟩

lemma pushContrib_startend (m : String) :
    pushContrib m "start" = 0 ∧ pushContrib m "end" = 0 := by
  constructor <;> rfl

lemma pcStep_counts (m : String) (st : PCSt) (node : Step) :
    countCloser m (pcStep st node).pc + stackContrib m (pcStep st node).ctrl_stack
      = countCloser m st.pc + stackContrib m st.ctrl_stack + pushContrib m node.type ∧
    endProcNames (pcStep st node).pc = endProcNames st.pc ∧
    (pcStep st node).func_stack
      = (if node.type == "function" then [procNameOf node.text] else []) ++ st.func_stack := by
  by_cases hg : (node.type == "start" || node.type == "end") = true
  · have hstep : pcStep st node = st := by
      unfold pcStep
      rw [if_pos hg]
    rw [hstep]
    have hse : node.type = "start" ∨ node.type = "end" := by
      rcases Bool.or_eq_true _ _ |>.mp hg with h | h
      · exact Or.inl (by simpa using h)
      · exact Or.inr (by simpa using h)
    rcases hse with h | h <;> rw [h]
    · exact ⟨by rw [(pushContrib_startend m).1]; omega, rfl, by simp +decide⟩
    · exact ⟨by rw [(pushContrib_startend m).2]; omega, rfl, by simp +decide⟩
  · have hstep : pcStep st node = pcHeuristic (pcEmit st node.type node.text) node.text := by
      unfold pcStep
      rw [if_neg hg]
    rw [hstep]
    obtain ⟨h1, h2, h3⟩ := pcHeuristic_counts m (pcEmit st node.type node.text) node.text
    obtain ⟨e1, e3, e2, e4⟩ := pcEmit_all m st node.type node.text
    refine ⟨by omega, by rw [h2, e3], by rw [h3, e4]⟩

lemma pcFold_counts (m : String) :
    ∀ (steps : List Step) (st : PCSt),
      countCloser m ((steps.foldl pcStep st).pc)
          + stackContrib m ((steps.foldl pcStep st).ctrl_stack)
        = countCloser m st.pc + stackContrib m st.ctrl_stack
          + (steps.map (fun n => pushContrib m n.type)).sum ∧
      endProcNames ((steps.foldl pcStep st).pc) = endProcNames st.pc ∧
      (steps.foldl pcStep st).func_stack = (funcPushNames steps).reverse ++ st.func_stack := by
  intro steps
  induction steps with
  | nil => intro st; simp [funcPushNames]
  | cons n rest ih =>
    intro st
    simp only [List.foldl_cons, List.map_cons, List.sum_cons]
    obtain ⟨s1, s2, s3⟩ := pcStep_counts m st n
    obtain ⟨i1, i2, i3⟩ := ih (pcStep st n)
    refine ⟨by omega, by rw [i2, s2], ?_⟩
    rw [i3, s3]
    simp only [funcPushNames, List.filterMap_cons]
    split_ifs with hf
    · simp
    · simp

lemma unwindCtrl_counts (m : String) :
    ∀ (stack : List String) (pc : List (Int × Str)) (ind : Int),
      countCloser m (unwindCtrl stack pc ind).1 = countCloser m pc + stackContrib m stack ∧
      endProcNames (unwindCtrl stack pc ind).1 = endProcNames pc := by
  intro stack
  induction stack with
  | nil => intro pc ind; simp [unwindCtrl, stackContrib]
  | cons m' rest ih =>
    intro pc ind
    unfold unwindCtrl
    simp only [end_one_block]
    rcases hcl : closerOf m' with _ | c
    · simp only [hcl]
      obtain ⟨j1, j2⟩ := ih pc (max 1 (ind - 1))
      refine ⟨?_, j2⟩
      rw [j1]
      simp [stackContrib, List.countP_cons, hcl]
    · simp only [hcl]
      obtain ⟨j1, j2⟩ := ih (pc ++ [(ind - 1, c)]) (max 1 (ind - 1))
      have hct : closerText m' = c := by rw [closerText, hcl]; rfl
      refine ⟨?_, ?_⟩
      · rw [j1, countCloser_append]
        simp only [stackContrib, List.countP_cons, hcl, hct, Option.isSome_some,
          Bool.true_and, decide_eq_true_eq]
        by_cases hcm : c = closerText m <;> simp [hcm, stackContrib] <;> omega
      · rw [j2]
        exact endProcNames_append_ne _ _ _ (closer_not_endproc hcl)

lemma unwindFunc_counts (m : String) :
    ∀ (fs : List Str) (pc : List (Int × Str)) (ind : Int),
      countCloser m (unwindFunc fs pc ind).1 = countCloser m pc ∧
      endProcNames (unwindFunc fs pc ind).1 = endProcNames pc ++ fs := by
  intro fs
  induction fs with
  | nil => intro pc ind; simp [unwindFunc]
  | cons name rest ih =>
    intro pc ind
    unfold unwindFunc
    obtain ⟨j1, j2⟩ := ih (pc ++ [(max 1 (ind - 1), str "END PROCEDURE  // " ++ name)])
      (max 1 (ind - 1))
    refine ⟨?_, ?_⟩
    · rw [j1]
      exact countCloser_append_ne m _ _ _
        (emission_ne_closerText m _ rfl rfl rfl rfl rfl rfl (List.cons_ne_nil _ _))
    · rw [j2, endProcNames_append_proc]
      simp

lemma pushContrib_eq (m : String) (hm : m ∈ MARKERS) (t : String) :
    pushContrib m t = (if pushMarker t == some m then 1 else 0) := by
  simp only [MARKERS, List.mem_cons, List.mem_singleton, List.not_mem_nil, or_false] at hm
  rcases hm with rfl | rfl | rfl | rfl | rfl | rfl <;>
    (unfold pushContrib pushMarker
     split_ifs <;> simp_all +decide)

lemma sum_pushContrib (m : String) (hm : m ∈ MARKERS) (steps : List Step) :
    (steps.map (fun n => pushContrib m n.type)).sum = countPushes m steps := by
  induction steps with
  | nil => simp [countPushes]
  | cons n rest ih =>
    simp only [List.map_cons, List.sum_cons, countPushes, List.countP_cons] at ih ⊢
    rw [pushContrib_eq m hm, ih]
    omega

/-- C7: after the pseudocode renderer finishes, its control and function
stacks are empty; for every marker kind the emitted lines contain exactly as
many of its closing lines (`END IF`, `END FOR`, `END WHILE`, `END DO`,
`END SWITCH`, `// END CASE`) as steps that push that marker; and the
`END PROCEDURE  // <name>` lines are exactly the pushed procedure names,
closed in reverse (LIFO) order. -/
theorem pseudocode_stacks_balanced (steps : List Step) :
    (renderState steps).ctrl_stack = [] ∧
    (renderState steps).func_stack = [] ∧
    (∀ m ∈ MARKERS, countCloser m (renderState steps).pc = countPushes m steps) ∧
    endProcNames (renderState steps).pc = (funcPushNames steps).reverse := by
  refine ⟨rfl, rfl, ?_, ?_⟩
  · intro m hm
    obtain ⟨f1, f2, f3⟩ := pcFold_counts m steps pcInit
    have hbegin : countCloser m pcInit.pc = 0 := by
      have hne := emission_ne_closerText m (str "BEGIN") rfl rfl rfl rfl rfl rfl
        (List.cons_ne_nil _ _)
      simp [pcInit, countCloser, List.countP_cons, hne]
    show countCloser m (_ ++ [(_, str "END")]) = _
    rw [countCloser_append_ne m _ _ (str "END")
      (emission_ne_closerText m (str "END") rfl rfl rfl rfl rfl rfl (by decide))]
    rw [(unwindFunc_counts m _ _ _).1, (unwindCtrl_counts m _ _ _).1]
    rw [← sum_pushContrib m hm steps]
    rw [hbegin, show stackContrib m pcInit.ctrl_stack = 0 from rfl] at f1
    omega
  · obtain ⟨f1, f2, f3⟩ := pcFold_counts "IF" steps pcInit
    have hbegin : endProcNames pcInit.pc = [] := by decide
    show endProcNames (_ ++ [(_, str "END")]) = _
    rw [endProcNames_append_ne _ _ (str "END") rfl]
    rw [(unwindFunc_counts "IF" _ _ _).2, (unwindCtrl_counts "IF" _ _ _).2, f2, hbegin, f3]
    simp [pcInit]

/-- Witness input for C7: a brace-family conditional with one IF push. -/
def c7steps : List Step :=
  build_steps (normalize_indentation [str "if (x) \x7b", str "y = 1;", str "\x7d"] "c")

/-- Witness for C7: at the concrete input the renderer emits exactly one
`END IF` for the one pushed IF marker. -/
theorem pseudocode_stacks_balanced_witness :
    countCloser "IF" (renderState c7steps).pc = countPushes "IF" c7steps ∧
    countPushes "IF" c7steps = 1 :=
  ⟨(pseudocode_stacks_balanced c7steps).2.2.1 "IF" (by decide), by decide⟩

end UiRev

